import Mathlib

/-!
Verification of the use60 transcription-and-diarization pipeline

Shallow embedding of the `lambda-transcribe` service (diarize.py,
format_output.py, transcribe.py, handler.py, download.py, server.py) and
proofs about it.  Python strings are modelled as Lean `String` (reasoned
about through their `List Char` data), Python floats as `ℚ`, Python dict
fields that may be absent as `Option`, and raised exceptions as
`Except String`.  External engines (Whisper, pyannote, S3, ffmpeg) are
modelled as oracles supplied in environment records: each call site that
can return data or raise is a field holding `Except String α`.
-/

namespace Use60

/-! ## Python string primitives, modelled at the character level -/

/-- Python's `str.strip()` whitespace test, restricted to the ASCII
whitespace characters Python recognises. -/
def isPySpace (c : Char) : Bool :=
  c = ' ' ∨ c = '\t' ∨ c = '\n' ∨ c = '\r' ∨ c = '\x0b' ∨ c = '\x0c'

/-- Python `str.strip()`: drop leading and trailing whitespace. -/
def pyStrip (s : String) : String :=
  String.mk (((s.data.dropWhile isPySpace).reverse.dropWhile isPySpace).reverse)

/-- Split a character list at every character satisfying `p` (the
separators are dropped).  Mirrors Python `str.split(sep)` on the character
level; always returns at least one (possibly empty) chunk. -/
def splitListP (p : Char → Bool) : List Char → List (List Char)
  | [] => [[]]
  | c :: cs =>
    if p c then [] :: splitListP p cs
    else
      match splitListP p cs with
      | [] => [[c]]
      | l :: ls => (c :: l) :: ls

/-- The newline-separated lines of a string, with the `str.splitlines`
convention that the empty string has no lines. -/
def linesOf (s : String) : List String :=
  if s.data = [] then [] else (splitListP (fun c => c = '\n') s.data).map String.mk

/-- Python `str.split()` with no argument: split on whitespace runs,
dropping empty chunks.  Used for `len(transcript_text.split())`. -/
def pyWordSplit (s : String) : List String :=
  ((splitListP isPySpace s.data).filter (fun l => l ≠ [])).map String.mk

/-- Python `"\n".join(lines)`. -/
def joinLines : List String → String
  | [] => ""
  | [x] => x
  | x :: y :: xs => x ++ "\n" ++ joinLines (y :: xs)

/-- The decimal digit character for `d < 10`. -/
def digitChar (d : ℕ) : Char := Char.ofNat (48 + d)

/-- Decimal digits of a natural number, with explicit fuel so that the
definition is structurally recursive. -/
def natToStrAux : ℕ → ℕ → List Char
  | 0, _ => []
  | fuel + 1, n =>
    if n < 10 then [digitChar n]
    else natToStrAux fuel (n / 10) ++ [digitChar (n % 10)]

/-- Decimal representation of a natural number (Python `str(int)` for
non-negative values). -/
def natToStr (n : ℕ) : String := String.mk (natToStrAux (n + 1) n)

/-- Python `str(int)`. -/
def intToStr (i : ℤ) : String :=
  if i < 0 then String.mk ('-' :: (natToStr i.natAbs).data) else natToStr i.toNat

/-- Replace every occurrence of the (non-empty) pattern, with explicit
fuel; mirrors Python's `str.replace(pat, "")` used on speaker labels. -/
def eraseAllAux (pat : List Char) : ℕ → List Char → List Char
  | 0, l => l
  | _ + 1, [] => []
  | fuel + 1, c :: cs =>
    if (c :: cs).take pat.length = pat then eraseAllAux pat fuel ((c :: cs).drop pat.length)
    else c :: eraseAllAux pat fuel cs

/-- Python `s.replace(pat, "")` for a non-empty pattern. -/
def eraseAll (pat : List Char) (l : List Char) : List Char :=
  eraseAllAux pat l.length l

/-- Numeric value of a decimal digit character. -/
def digitVal (c : Char) : Option ℕ :=
  if c.isDigit then some (c.toNat - 48) else none

/-- Parse a non-empty all-digit character list as a natural number. -/
def digitsToNat (l : List Char) : Option ℕ :=
  if l = [] then none
  else l.foldl (fun acc c =>
    match acc, digitVal c with
    | some a, some d => some (a * 10 + d)
    | _, _ => none) (some 0)

/-- Python `int(s)` restricted to an optional sign followed by digits
(the only shapes speaker labels can produce); `none` models the
`ValueError` caught by the caller. -/
def toIntOpt : List Char → Option ℤ
  | '-' :: rest => (digitsToNat rest).map (fun n => -(n : ℤ))
  | '+' :: rest => (digitsToNat rest).map (fun n => (n : ℤ))
  | l => (digitsToNat l).map (fun n => (n : ℤ))

/-- Floor of a rational, computed from its normal form. -/
def ratFloor (q : ℚ) : ℤ := q.num.fdiv (q.den : ℤ)

/-- Python `round(x, d)` modelled as rounding half up at `d` decimal
places (the tie-breaking rule is irrelevant to every claim). -/
def roundQ (d : ℕ) (q : ℚ) : ℚ :=
  (ratFloor (q * 10 ^ d + 1 / 2) : ℚ) / 10 ^ d

/-! ## Data model

Whisper segments and words are Python dicts; fields read with `.get` are
modelled as `Option` and the `.get` default is applied at each use site,
exactly as in the source. -/

/-- A Whisper word entry (`w["word"]` is accessed unconditionally in the
source, so the text field is not optional). -/
structure Word where
  word : String
  wstart : Option ℚ
  wend : Option ℚ
  score : Option ℚ
  deriving DecidableEq, Repr

/-- A Whisper transcript segment, as consumed by `diarize` and
`format_output`. -/
structure Segment where
  start : Option ℚ
  send : Option ℚ
  text : String
  words : List Word
  confidence : Option ℚ
  speaker : Option String
  deriving DecidableEq, Repr

/-- A pyannote diarization turn: `(turn, _, speaker)` from
`diarization.itertracks(yield_label=True)`. -/
structure Turn where
  speaker : String
  tstart : ℚ
  tend : ℚ
  deriving DecidableEq, Repr

/-- A formatted word entry produced by `format_output`. -/
structure FWord where
  word : String
  fstart : ℚ
  fend : ℚ
  confidence : ℚ
  deriving DecidableEq, Repr

/-- An output utterance produced by `format_output`. -/
structure Utterance where
  speaker : ℤ
  ustart : ℚ
  uend : ℚ
  text : String
  confidence : ℚ
  words : List FWord
  deriving DecidableEq, Repr

/-- The `transcript_json` object `{"utterances": [...]}`. -/
structure TranscriptJson where
  utterances : List Utterance
  deriving DecidableEq, Repr

/-! ## diarize.py -/

/-- Overlap of the segment window with one turn:
`max(0, min(seg_end, turn.end) - max(seg_start, turn.start))`
(diarize.py lines 66-68). -/
def ov (segStart segEnd : ℚ) (t : Turn) : ℚ :=
  max 0 (min segEnd t.tend - max segStart t.tstart)

/-- Python dict update `speaker_times[speaker] = speaker_times.get(speaker, 0) + overlap` on
an insertion-ordered association list, the model of a Python dict. -/
def addTime (sp : String) (v : ℚ) : List (String × ℚ) → List (String × ℚ)
  | [] => [(sp, v)]
  | (k, w) :: rest =>
    if k = sp then (k, w + v) :: rest else (k, w) :: addTime sp v rest

/-- One iteration of the `for turn, _, speaker in ...` loop body
(diarize.py lines 65-70): only strictly positive overlaps are recorded. -/
def diarStep (segStart segEnd : ℚ) (acc : List (String × ℚ)) (t : Turn) :
    List (String × ℚ) :=
  if ov segStart segEnd t > 0 then addTime t.speaker (ov segStart segEnd t) acc else acc

/-- The `speaker_times` dict after the loop over all turns. -/
def buildTimes (segStart segEnd : ℚ) (turns : List Turn) : List (String × ℚ) :=
  turns.foldl (diarStep segStart segEnd) []

/-- Python `max(iterable, key=...)` over dict keys compared by value:
the first key attaining the maximal value wins. -/
def pickBest : (String × ℚ) → List (String × ℚ) → (String × ℚ)
  | best, [] => best
  | best, p :: ps => pickBest (if p.2 > best.2 then p else best) ps

/-- Python `max(speaker_times, key=speaker_times.get)` on a possibly empty dict. -/
def pickMax : List (String × ℚ) → Option String
  | [] => none
  | p :: ps => some (pickBest p ps).1

/-- Python `seg_start = seg.get("start", 0)` (diarize.py line 60). -/
def segStartOf (seg : Segment) : ℚ := seg.start.getD 0

/-- Python `seg_end = seg.get("end", seg_start)` (diarize.py line 61). -/
def segEndOf (seg : Segment) : ℚ := seg.send.getD (segStartOf seg)

/-- The speaker assigned to one segment window by the overlap loop
(diarize.py lines 63-76). -/
def assignSpeaker (segStart segEnd : ℚ) (turns : List Turn) : String :=
  match pickMax (buildTimes segStart segEnd turns) with
  | some s => s
  | none => "SPEAKER_00"

/-- Total overlap of a speaker's turns with the segment window, the
quantity the specification says the assignment maximises. -/
def overlapSum (segStart segEnd : ℚ) (k : String) : List Turn → ℚ
  | [] => 0
  | t :: ts =>
    (if t.speaker = k then ov segStart segEnd t else 0) + overlapSum segStart segEnd k ts

/-- The assignment `seg["speaker"] = label`. -/
def setSpeaker (label : String) (seg : Segment) : Segment :=
  { seg with speaker := some label }

/-- The check `hf_token = os.environ.get("HF_TOKEN"); if not hf_token: ...` —
Python truthiness of an optional string. -/
def tokenPresent : Option String → Bool
  | none => false
  | some s => !(s = "")

/-- Oracle for the external pyannote model: whether `HF_TOKEN` is set,
whether `_diarize_model` is already cached, the outcome of
`Pipeline.from_pretrained` and the outcome of invoking the model. -/
structure DiarEnv where
  hfToken : Option String
  modelCached : Bool
  loadResult : Except String Unit
  invokeResult : Except String (List Turn)
  deriving Repr

/-- The guard `if num_speakers is not None and num_speakers > 0` (diarize.py
lines 48-51): the keyword argument actually passed to the model. -/
def diarKwargs (numSpeakers : Option ℤ) : Option ℤ :=
  match numSpeakers with
  | some k => if k > 0 then some k else none
  | none => none

/-- The function `diarize(wav_path, segments, num_speakers)` (diarize.py).
`Except.error` models an exception escaping the function: note that
`Pipeline.from_pretrained` (lines 40-45) runs *outside* the
`try` block, so a load failure propagates, while an invocation failure
(line 56 onward, inside `try`) degrades to `SPEAKER_00` for all
segments. -/
def diarize (env : DiarEnv) (segments : List Segment) (numSpeakers : Option ℤ) :
    Except String (List Segment) :=
  if segments = [] then Except.ok segments
  else if tokenPresent env.hfToken = false then
    Except.ok (segments.map (setSpeaker "SPEAKER_00"))
  else
    match (if env.modelCached then Except.ok () else env.loadResult) with
    | Except.error e => Except.error e
    | Except.ok () =>
      let _kwargs := diarKwargs numSpeakers
      match env.invokeResult with
      | Except.error _ => Except.ok (segments.map (setSpeaker "SPEAKER_00"))
      | Except.ok turns =>
        Except.ok (segments.map (fun seg =>
          setSpeaker (assignSpeaker (segStartOf seg) (segEndOf seg) turns) seg))

/-! ## format_output.py -/

/-- The parse `int(speaker_label.replace("SPEAKER_", ""))` with the
`ValueError`/`AttributeError` fallback to `0`
(format_output.py lines 39-42). -/
def parseSpeakerNum (label : String) : ℤ :=
  match toIntOpt (eraseAll ("SPEAKER_".data) label.data) with
  | some i => i
  | none => 0

/-- The word loop (format_output.py lines 49-58): keep only words with
both timestamps, rounding times to 3 and confidence to 4 decimals. -/
def buildWords : List Word → List FWord
  | [] => []
  | w :: ws =>
    match w.wstart, w.wend with
    | some s, some e =>
      { word := w.word, fstart := roundQ 3 s, fend := roundQ 3 e,
        confidence := roundQ 4 (w.score.getD 0) } :: buildWords ws
    | _, _ => buildWords ws

/-- The utterance built for one non-empty segment
(format_output.py lines 60-67). -/
def mkUtterance (seg : Segment) : Utterance :=
  { speaker := parseSpeakerNum (seg.speaker.getD "SPEAKER_00")
    ustart := roundQ 3 (seg.start.getD 0)
    uend := roundQ 3 (seg.send.getD 0)
    text := pyStrip seg.text
    confidence := roundQ 4 (seg.confidence.getD 0)
    words := buildWords seg.words }

/-- The rendered line "Speaker N: text" (format_output.py line 69). -/
def lineOf (u : Utterance) : String :=
  "Speaker " ++ intToStr u.speaker ++ ": " ++ u.text

/-- Whether a segment survives the `if not text: continue` filter. -/
def keepSeg (seg : Segment) : Bool := !(pyStrip seg.text = "")

/-- One iteration of the segment loop (format_output.py lines 35-69),
appending to the `utterances` and `text_lines` accumulators. -/
def formatStep (acc : List Utterance × List String) (seg : Segment) :
    List Utterance × List String :=
  if pyStrip seg.text = "" then acc
  else (acc.1 ++ [mkUtterance seg], acc.2 ++ [lineOf (mkUtterance seg)])

/-- The function `format_output(diarized_segments)` returning
`(transcript_text, transcript_json, utterances)`. -/
def format_output (diarized_segments : List Segment) :
    String × TranscriptJson × List Utterance :=
  if diarized_segments = [] then ("", ⟨[]⟩, [])
  else
    let p := diarized_segments.foldl formatStep ([], [])
    (joinLines p.2, ⟨p.1⟩, p.1)

/-! ## transcribe.py -/

/-- The static alias table (transcribe.py lines 26-30). -/
def modelMap (s : String) : String :=
  if s = "large-v3" ∨ s = "large-v2" then "large" else s

/-- Oracle for `model.transcribe(...)`: the dict Whisper returns, with
optional `language` and `segments` entries. -/
structure WhisperResult where
  language : Option String
  segments : Option (List Segment)
  deriving Repr

/-- Python `language or "en"` truthiness. -/
def pyOrStr (o : Option String) (d : String) : String :=
  match o with
  | none => d
  | some s => if s = "" then d else s

/-- The function `transcribe(wav_path, model_size, language)` (transcribe.py), given
the engine result; returns `(segments, detected_language)`.  The model
cache only selects which handle is used, which the oracle already
abstracts. -/
def transcribe (result : WhisperResult) (model_size : String)
    (language : Option String) : List Segment × String :=
  let _model_name := modelMap model_size
  let detected_language := result.language.getD (pyOrStr language "en")
  let segments := result.segments.getD []
  (segments, detected_language)

/-! ## handler.py -/

/-- Python `len(set(...))` over a list with decidable equality. -/
def distinctCount {α : Type} [DecidableEq α] (l : List α) : ℕ := l.dedup.length

/-- Python `len(transcript_text.split())` (handler.py line 90). -/
def wordCount (s : String) : ℕ := (pyWordSplit s).length

/-- The result dict sent to the callback.  Keys that the error path never
sets are `Option`; `error` is `none` on success exactly as the Python
dict keeps `"error": None`. -/
structure ResultEnvelope where
  recording_id : String
  status : String
  error : Option String
  transcript_text : Option String
  transcript_json : Option TranscriptJson
  transcript_utterances : Option (List Utterance)
  duration_seconds : Option ℚ
  language : Option String
  word_count : Option ℕ
  speaker_count : Option ℕ
  processing_seconds : Option ℕ
  deriving Repr

/-- The observable side effects of `process_transcription`'s `finally`
block, in execution order. -/
inductive Effect where
  | cleanup : String → Effect
  | callback : String → String → ResultEnvelope → Effect

/-- Recognise a callback attempt. -/
def isCallbackEffect : Effect → Bool
  | Effect.callback _ _ _ => true
  | _ => false

/-- The job event together with oracles for every fallible external call
of the pipeline body: download, ffmpeg conversion, the Whisper call, the
pyannote oracles and the ffprobe duration probe.  `elapsed` is the value
of `int(time.time() - start_time)` at envelope-build time. -/
structure PEnv where
  recording_id : String
  audio_url : Option String
  video_url : Option String
  callback_url : String
  callback_secret : String
  language : Option String
  model_size : Option String
  num_speakers : Option ℤ
  downloadResult : Except String String
  convertResult : Except String String
  whisperResult : Except String WhisperResult
  diarEnv : DiarEnv
  durationResult : Except String ℚ
  elapsed : ℕ

/-- The choice `event.get("audio_url") or event.get("video_url")`, with the
subsequent `if not audio_url: raise ValueError(...)` truthiness check
(handler.py lines 52-54). -/
def sourceUrl (e : PEnv) : Option String :=
  match e.audio_url with
  | some s => if s = "" then (match e.video_url with
      | some t => if t = "" then none else some t
      | none => none)
    else some s
  | none =>
    match e.video_url with
    | some t => if t = "" then none else some t
    | none => none

/-- The fields set on the result dict by the success path
(handler.py lines 84-92). -/
structure SuccessData where
  transcript_text : String
  transcript_json : TranscriptJson
  utterances : List Utterance
  duration_seconds : ℚ
  language : String
  deriving Repr

/-- The `try` body of `process_transcription` (handler.py lines 50-92):
each stage either produces a value or raises, and a raise skips every
later stage. -/
def runBody (e : PEnv) : Except String SuccessData := do
  let _url ← match sourceUrl e with
    | some u => Except.ok u
    | none => Except.error "No audio_url or video_url provided"
  let _local_path ← e.downloadResult
  let _wav_path ← e.convertResult
  let wres ← e.whisperResult
  let (segments, detected_language) := transcribe wres (e.model_size.getD "medium") e.language
  let diarized_segments ← diarize e.diarEnv segments e.num_speakers
  let (transcript_text, transcript_json, utterances) := format_output diarized_segments
  let duration_seconds ← e.durationResult
  Except.ok
    { transcript_text := transcript_text, transcript_json := transcript_json,
      utterances := utterances, duration_seconds := duration_seconds,
      language := detected_language }

/-- The envelope built on the success path. -/
def successEnvelope (e : PEnv) (d : SuccessData) : ResultEnvelope :=
  { recording_id := e.recording_id
    status := "success"
    error := none
    transcript_text := some d.transcript_text
    transcript_json := some d.transcript_json
    transcript_utterances := some d.utterances
    duration_seconds := some d.duration_seconds
    language := some d.language
    word_count := some (wordCount d.transcript_text)
    speaker_count := some (distinctCount (d.utterances.map (fun u => u.speaker)))
    processing_seconds := some e.elapsed }

/-- The envelope built by the `except` block (handler.py lines 100-103). -/
def errorEnvelope (e : PEnv) (msg : String) : ResultEnvelope :=
  { recording_id := e.recording_id
    status := "error"
    error := some msg
    transcript_text := none
    transcript_json := none
    transcript_utterances := none
    duration_seconds := none
    language := none
    word_count := none
    speaker_count := none
    processing_seconds := some e.elapsed }

/-- The function `process_transcription(event)` (handler.py lines 35-112): the
`try`/`except`/`finally` block.  The `finally` clause always runs
`cleanup_temp_files(recording_id)` and then `_send_callback(...)` exactly
once, on both the success and the exception path; the effect list records
those two calls in order. -/
def process_transcription (e : PEnv) : ResultEnvelope × List Effect :=
  let result :=
    match runBody e with
    | Except.ok d => successEnvelope e d
    | Except.error msg => errorEnvelope e msg
  (result,
    [Effect.cleanup e.recording_id,
     Effect.callback e.callback_url e.callback_secret result])

/-- The glob patterns removed by `cleanup_temp_files`
(download.py lines 79-91): both naming variants of the job's scratch
files. -/
def cleanupPatterns (recording_id : String) : List String :=
  ["/tmp/" ++ recording_id ++ "_input*", "/tmp/" ++ recording_id ++ "_audio*"]

/-! ## The unguarded model caches (transcribe.py lines 33-35 and
diarize.py lines 40-45)

Both call sites follow the same pattern on a process-wide slot with no
lock held:
`if slot is empty: slot := expensive_load()`.
The model below runs two jobs, each executing that pattern as two atomic
steps — (1) read the slot, (2) if it was observed empty, load and store —
under an arbitrary interleaving, counting how many loads are triggered. -/

/-- Shared cache slot plus per-job program counters and the emptiness
observation each job made at its check step. -/
structure CacheState where
  cached : Bool
  loads : ℕ
  pc1 : ℕ
  pc2 : ℕ
  saw1 : Bool
  saw2 : Bool
  deriving DecidableEq, Repr

/-- One step of one job (`tid = false` is job 1): at pc 0 it evaluates
`slot is empty`, at pc 1 it loads and stores iff its check observed an
empty slot. -/
def raceStep (tid : Bool) (s : CacheState) : CacheState :=
  if tid = false then
    match s.pc1 with
    | 0 => { s with pc1 := 1, saw1 := !s.cached }
    | 1 =>
      if s.saw1 then { s with pc1 := 2, cached := true, loads := s.loads + 1 }
      else { s with pc1 := 2 }
    | _ => s
  else
    match s.pc2 with
    | 0 => { s with pc2 := 1, saw2 := !s.cached }
    | 1 =>
      if s.saw2 then { s with pc2 := 2, cached := true, loads := s.loads + 1 }
      else { s with pc2 := 2 }
    | _ => s

/-- Run a schedule (the list of thread ids granted successive steps). -/
def raceRun (sched : List Bool) (s : CacheState) : CacheState :=
  sched.foldl (fun st t => raceStep t st) s

/-- Cold start: slot empty, no loads, both jobs at their check. -/
def raceInit : CacheState :=
  { cached := false, loads := 0, pc1 := 0, pc2 := 0, saw1 := false, saw2 := false }

/-- Python `speaker_times.get(k, 0)`: first-occurrence lookup with default 0. -/
def lookupD (l : List (String × ℚ)) (k : String) : ℚ :=
  match l with
  | [] => 0
  | (a, b) :: r => if a = k then b else lookupD r k

/-- Invariant of the dict built from positive overlaps: every stored
value is positive and keys are distinct. -/
def GoodDict (l : List (String × ℚ)) : Prop :=
  (∀ p ∈ l, 0 < p.2) ∧ (l.map Prod.fst).Nodup

/-- Character-level newline join. -/
def intercalateChar : List (List Char) → List Char
  | [] => []
  | [x] => x
  | x :: y :: xs => x ++ '\n' :: intercalateChar (y :: xs)

/-- Erase the speaker field: two segments agree on transcription content
iff they agree after `stripSpk`. -/
def stripSpk (seg : Segment) : Segment := { seg with speaker := none }

/-! ## Concrete fixtures used by counterexamples and witnesses -/

/-- A plain segment with no timing data and no speaker. -/
def segA : Segment := ⟨none, none, "hello", [], none, none⟩

/-- A segment whose text contains an embedded newline. -/
def segNL : Segment := ⟨none, none, "a\nb", [], none, none⟩

/-- A second newline-carrying segment. -/
def segNL6 : Segment := ⟨none, none, "x\ny", [], none, none⟩

/-- A segment with one word missing its end timestamp and one word with
both timestamps. -/
def segD : Segment :=
  ⟨none, none, " hi ", [⟨"a", some 1, none, none⟩, ⟨"b", some 1, some 2, none⟩], none, none⟩

/-- Diarization oracle: no credential configured. -/
def diarEnvNoToken : DiarEnv := ⟨none, false, Except.ok (), Except.ok []⟩

/-- Diarization oracle: credential present, cold cache and
`Pipeline.from_pretrained` raising. -/
def diarEnvLoadFail : DiarEnv := ⟨some "tok", false, Except.error "load failed", Except.ok []⟩

/-- Diarization oracle: credential present, model loads, invocation
raising. -/
def diarEnvInvokeFail : DiarEnv := ⟨some "tok", false, Except.ok (), Except.error "cuda error"⟩

/-- A pipeline environment where every stage succeeds except that the
diarization model fails to load. -/
def envLoadFail : PEnv :=
  { recording_id := "rec1", audio_url := some "http://b/a.mp3", video_url := none,
    callback_url := "http://cb", callback_secret := "sec", language := none,
    model_size := none, num_speakers := none,
    downloadResult := Except.ok "/tmp/rec1_input.mp3",
    convertResult := Except.ok "/tmp/rec1_audio.wav",
    whisperResult := Except.ok ⟨some "en", some [segA]⟩,
    diarEnv := diarEnvLoadFail,
    durationResult := Except.ok 0, elapsed := 7 }

/-- A pipeline environment where every stage succeeds and the diarization
model invocation fails. -/
def envInvokeFail : PEnv :=
  { envLoadFail with diarEnv := diarEnvInvokeFail }

/-! ## Lemmas about the `speaker_times` dict model -/


@[simp]
theorem overlapSum_nil (ss se : ℚ) (k : String) : overlapSum ss se k [] = 0 := rfl

@[simp]
theorem overlapSum_cons (ss se : ℚ) (k : String) (t : Turn) (ts : List Turn) :
    overlapSum ss se k (t :: ts) =
      (if t.speaker = k then ov ss se t else 0) + overlapSum ss se k ts := rfl

theorem ov_nonneg (ss se : ℚ) (t : Turn) : 0 ≤ ov ss se t := le_max_left _ _

theorem lookupD_addTime (l : List (String × ℚ)) (sp k : String) (v : ℚ) :
    lookupD (addTime sp v l) k = if k = sp then lookupD l k + v else lookupD l k := by
  induction l with
  | nil =>
    by_cases h : k = sp
    · subst h; simp [addTime, lookupD]
    · have h' : ¬ sp = k := fun hh => h hh.symm
      simp [addTime, lookupD, h, h']
  | cons p r ih =>
    obtain ⟨a, b⟩ := p
    by_cases hs : a = sp
    · subst hs
      by_cases hk : a = k
      · subst hk; simp [addTime, lookupD]
      · have hk' : ¬ k = a := fun hh => hk hh.symm
        simp [addTime, lookupD, hk, hk']
    · by_cases hk : a = k
      · subst hk
        have hk' : ¬ a = sp := hs
        simp [addTime, lookupD, hs, hk']
      · simp [addTime, lookupD, hs, hk, ih]

theorem lookupD_diarStep (ss se : ℚ) (acc : List (String × ℚ)) (t : Turn) (k : String) :
    lookupD (diarStep ss se acc t) k =
      lookupD acc k + (if t.speaker = k then ov ss se t else 0) := by
  unfold diarStep
  by_cases hpos : ov ss se t > 0
  · rw [if_pos hpos, lookupD_addTime]
    by_cases hk : t.speaker = k
    · subst hk; simp
    · have hk' : ¬ k = t.speaker := fun hh => hk hh.symm
      simp [hk, hk']
  · have hz : ov ss se t = 0 := le_antisymm (not_lt.mp hpos) (ov_nonneg ss se t)
    rw [if_neg hpos]
    by_cases hk : t.speaker = k <;> simp [hk, hz]

theorem lookupD_foldl (ss se : ℚ) (ts : List Turn) :
    ∀ (acc : List (String × ℚ)) (k : String),
      lookupD (ts.foldl (diarStep ss se) acc) k = lookupD acc k + overlapSum ss se k ts := by
  induction ts with
  | nil => intro acc k; simp
  | cons t ts ih =>
    intro acc k
    rw [List.foldl_cons, ih, lookupD_diarStep, overlapSum_cons]
    ring

theorem lookupD_buildTimes (ss se : ℚ) (ts : List Turn) (k : String) :
    lookupD (buildTimes ss se ts) k = overlapSum ss se k ts := by
  have h := lookupD_foldl ss se ts [] k
  simpa [buildTimes, lookupD] using h


theorem addTime_keys (sp : String) (v : ℚ) (l : List (String × ℚ)) :
    (addTime sp v l).map Prod.fst =
      if sp ∈ l.map Prod.fst then l.map Prod.fst else l.map Prod.fst ++ [sp] := by
  induction l with
  | nil => simp [addTime]
  | cons p r ih =>
    obtain ⟨a, b⟩ := p
    by_cases h : a = sp
    · subst h; simp [addTime]
    · have h' : ¬ sp = a := fun hh => h hh.symm
      by_cases hmem : sp ∈ r.map Prod.fst <;>
        simp [addTime, h, h', ih, hmem]

theorem addTime_pos (sp : String) (v : ℚ) (l : List (String × ℚ))
    (hv : 0 < v) (hpos : ∀ p ∈ l, 0 < p.2) : ∀ p ∈ addTime sp v l, 0 < p.2 := by
  induction l with
  | nil =>
    intro p hp
    simp [addTime] at hp
    simpa [hp] using hv
  | cons q r ih =>
    obtain ⟨a, b⟩ := q
    by_cases h : a = sp
    · subst h
      intro p hp
      simp [addTime] at hp
      rcases hp with hp | hp
      · have hb : 0 < b := hpos (a, b) (by simp)
        simpa [hp] using add_pos hb hv
      · exact hpos p (by simp [hp])
    · intro p hp
      simp [addTime, h] at hp
      rcases hp with hp | hp
      · have hb : 0 < b := hpos (a, b) (by simp)
        simpa [hp] using hb
      · exact ih (fun q hq => hpos q (by simp [hq])) p hp

theorem addTime_good (sp : String) (v : ℚ) (l : List (String × ℚ))
    (hv : 0 < v) (hg : GoodDict l) : GoodDict (addTime sp v l) := by
  obtain ⟨hpos, hnd⟩ := hg
  refine ⟨addTime_pos sp v l hv hpos, ?_⟩
  rw [addTime_keys]
  by_cases hmem : sp ∈ l.map Prod.fst
  · simpa [hmem] using hnd
  · simp only [hmem, if_false]
    rw [List.nodup_append]
    refine ⟨hnd, List.nodup_singleton sp, ?_⟩
    intro a ha hb
    rw [List.mem_singleton] at hb
    subst hb
    exact hmem ha

theorem buildTimes_good (ss se : ℚ) (ts : List Turn) :
    GoodDict (buildTimes ss se ts) := by
  suffices h : ∀ acc, GoodDict acc → GoodDict (ts.foldl (diarStep ss se) acc) by
    exact h [] ⟨by simp, by simp⟩
  induction ts with
  | nil => intro acc h; simpa using h
  | cons t ts ih =>
    intro acc h
    rw [List.foldl_cons]
    apply ih
    unfold diarStep
    by_cases hpos : ov ss se t > 0
    · rw [if_pos hpos]; exact addTime_good _ _ _ hpos h
    · rwa [if_neg hpos]

theorem lookupD_of_mem (l : List (String × ℚ)) (k : String) (v : ℚ)
    (hnd : (l.map Prod.fst).Nodup) (hm : (k, v) ∈ l) : lookupD l k = v := by
  induction l with
  | nil => cases hm
  | cons p r ih =>
    obtain ⟨a, b⟩ := p
    rcases List.mem_cons.mp hm with h | h
    · injection h with h1 h2
      simp [lookupD, h1.symm, h2.symm]
    · have hak : a ≠ k := by
        intro hak
        subst hak
        have : a ∈ r.map Prod.fst := List.mem_map.mpr ⟨(a, v), h, rfl⟩
        exact (List.nodup_cons.mp hnd).1 this
      simp only [lookupD, hak, if_false]
      exact ih (List.nodup_cons.mp hnd).2 h

theorem mem_of_key_mem (l : List (String × ℚ)) (k : String)
    (h : k ∈ l.map Prod.fst) : (k, lookupD l k) ∈ l := by
  induction l with
  | nil => simp at h
  | cons p r ih =>
    obtain ⟨a, b⟩ := p
    by_cases hk : a = k
    · subst hk; simp [lookupD]
    · simp only [List.map_cons, List.mem_cons] at h
      rcases h with h | h
      · exact absurd h.symm hk
      · simp only [lookupD, hk, if_false]
        exact List.mem_cons_of_mem _ (ih h)

theorem lookupD_of_not_mem (l : List (String × ℚ)) (k : String)
    (h : k ∉ l.map Prod.fst) : lookupD l k = 0 := by
  induction l with
  | nil => rfl
  | cons p r ih =>
    obtain ⟨a, b⟩ := p
    simp only [List.map_cons, List.mem_cons] at h
    push_neg at h
    have hak : ¬ a = k := fun hh => h.1 hh.symm
    simp only [lookupD, hak, if_false]
    exact ih h.2

theorem pickBest_spec (ps : List (String × ℚ)) :
    ∀ b : String × ℚ, pickBest b ps ∈ (b :: ps) ∧ b.2 ≤ (pickBest b ps).2 ∧
      ∀ p ∈ ps, p.2 ≤ (pickBest b ps).2 := by
  induction ps with
  | nil => intro b; simp [pickBest]
  | cons q qs ih =>
    intro b
    by_cases h : q.2 > b.2
    · have spec := ih q
      refine ⟨?_, ?_, ?_⟩
      · rcases List.mem_cons.mp spec.1 with hh | hh
        · simp [pickBest, h, hh]
        · simp [pickBest, h, List.mem_cons_of_mem, hh]
      · calc b.2 ≤ q.2 := le_of_lt h
          _ ≤ _ := by simpa [pickBest, h] using spec.2.1
      · intro p hp
        rcases List.mem_cons.mp hp with hp | hp
        · subst hp; simpa [pickBest, h] using spec.2.1
        · simpa [pickBest, h] using spec.2.2 p hp
    · have spec := ih b
      refine ⟨?_, ?_, ?_⟩
      · rcases List.mem_cons.mp spec.1 with hh | hh
        · simp [pickBest, h, hh]
        · simp [pickBest, h, List.mem_cons_of_mem, hh]
      · simpa [pickBest, h] using spec.2.1
      · intro p hp
        rcases List.mem_cons.mp hp with hp | hp
        · subst hp
          calc p.2 ≤ b.2 := not_lt.mp h
            _ ≤ _ := by simpa [pickBest, h] using spec.2.1
        · simpa [pickBest, h] using spec.2.2 p hp

theorem pickMax_spec (l : List (String × ℚ)) (k : String) (h : pickMax l = some k) :
    ∃ v, (k, v) ∈ l ∧ ∀ p ∈ l, p.2 ≤ v := by
  match l, h with
  | p :: ps, h =>
    have spec := pickBest_spec ps p
    simp only [pickMax, Option.some.injEq] at h
    refine ⟨(pickBest p ps).2, ?_, ?_⟩
    · have heq : (k, (pickBest p ps).2) = pickBest p ps := by
        rw [← h]
      rw [heq]
      exact spec.1
    · intro q hq
      rcases List.mem_cons.mp hq with hq | hq
      · subst hq; exact spec.2.1
      · exact spec.2.2 q hq

theorem pickMax_none (l : List (String × ℚ)) (h : pickMax l = none) : l = [] := by
  cases l with
  | nil => rfl
  | cons p ps => simp [pickMax] at h

/-- The assigned speaker's accumulated overlap dominates every speaker's
accumulated overlap. -/
theorem assignSpeaker_maximal (ss se : ℚ) (ts : List Turn) (k : String) :
    overlapSum ss se k ts ≤ overlapSum ss se (assignSpeaker ss se ts) ts := by
  unfold assignSpeaker
  cases hpm : pickMax (buildTimes ss se ts) with
  | none =>
    have hnil := pickMax_none _ hpm
    have h1 := lookupD_buildTimes ss se ts k
    have h2 := lookupD_buildTimes ss se ts "SPEAKER_00"
    rw [hnil] at h1 h2
    simp only [lookupD] at h1 h2
    rw [← h1, ← h2]
  | some s =>
    obtain ⟨v, hmem, hmax⟩ := pickMax_spec _ _ hpm
    have hgood := buildTimes_good ss se ts
    have hs : overlapSum ss se s ts = v := by
      rw [← lookupD_buildTimes ss se ts s]
      exact lookupD_of_mem _ _ _ hgood.2 hmem
    rw [hs]
    by_cases hk : k ∈ (buildTimes ss se ts).map Prod.fst
    · have hkmem := mem_of_key_mem _ _ hk
      have hle := hmax _ hkmem
      rw [← lookupD_buildTimes ss se ts k]
      exact hle
    · rw [← lookupD_buildTimes ss se ts k, lookupD_of_not_mem _ _ hk]
      exact le_of_lt (hgood.1 _ hmem)

/-- With no positive overlap anywhere, the dict stays empty and the
default speaker is assigned. -/
theorem assignSpeaker_default (ss se : ℚ) (ts : List Turn)
    (h : ∀ t ∈ ts, ov ss se t = 0) : assignSpeaker ss se ts = "SPEAKER_00" := by
  have hempty : buildTimes ss se ts = [] := by
    unfold buildTimes
    induction ts with
    | nil => simp
    | cons t ts ih =>
      rw [List.foldl_cons]
      have hz : ov ss se t = 0 := h t (by simp)
      have hstep : diarStep ss se [] t = [] := by simp [diarStep, hz]
      rw [hstep]
      exact ih (fun t ht => h t (by simp [ht]))
  simp [assignSpeaker, hempty, pickMax]

/-- The function `diarize` on a successful model run assigns every segment through
`assignSpeaker` on that segment's window. -/
theorem diarize_ok_assigns (env : DiarEnv) (segs : List Segment)
    (n : Option ℤ) (turns : List Turn)
    (htok : tokenPresent env.hfToken = true)
    (hload : env.modelCached = true ∨ env.loadResult = Except.ok ())
    (hinv : env.invokeResult = Except.ok turns) :
    diarize env segs n = Except.ok (segs.map (fun seg =>
      setSpeaker (assignSpeaker (segStartOf seg) (segEndOf seg) turns) seg)) := by
  unfold diarize
  by_cases hnil : segs = []
  · subst hnil; simp
  · rw [if_neg hnil, htok]
    have hl : (if env.modelCached then Except.ok () else env.loadResult) = Except.ok () := by
      rcases hload with h | h
      · simp [h]
      · cases hm : env.modelCached <;> simp [h]
    rw [hl]
    simp [hinv]

/-! ## Lemmas about format_output -/

theorem mkData (s : String) : String.mk s.data = s := by cases s; rfl

theorem string_ne_empty_iff (s : String) : s ≠ "" ↔ s.data ≠ [] := by
  constructor
  · intro h hd
    exact h (by rw [← mkData s, hd])
  · intro h hd
    exact h (by rw [hd])

theorem foldl_formatStep (segs : List Segment) :
    ∀ (u0 : List Utterance) (l0 : List String),
      segs.foldl formatStep (u0, l0) =
        (u0 ++ (segs.filter keepSeg).map mkUtterance,
         l0 ++ (segs.filter keepSeg).map (fun s => lineOf (mkUtterance s))) := by
  induction segs with
  | nil => intro u0 l0; simp
  | cons s ss ih =>
    intro u0 l0
    rw [List.foldl_cons]
    by_cases h : pyStrip s.text = ""
    · have hk : keepSeg s = false := by simp [keepSeg, h]
      have hstep : formatStep (u0, l0) s = (u0, l0) := by simp [formatStep, h]
      rw [hstep, ih]
      simp [List.filter_cons, hk]
    · have hk : keepSeg s = true := by simp [keepSeg, h]
      have hstep : formatStep (u0, l0) s =
          (u0 ++ [mkUtterance s], l0 ++ [lineOf (mkUtterance s)]) := by
        simp [formatStep, h]
      rw [hstep, ih]
      simp [List.filter_cons, hk]

/-- Closed form of `format_output`: all three representations are built
by the same filtered, order-preserving pass over the segments. -/
theorem format_output_eq (segs : List Segment) :
    format_output segs =
      (joinLines ((segs.filter keepSeg).map (fun s => lineOf (mkUtterance s))),
       ⟨(segs.filter keepSeg).map mkUtterance⟩,
       (segs.filter keepSeg).map mkUtterance) := by
  unfold format_output
  by_cases h : segs = []
  · subst h; simp [joinLines]
  · rw [if_neg h]
    rw [foldl_formatStep segs [] []]
    simp

/-! ## Splitting a joined line list recovers the lines -/


theorem joinLines_data (l : List String) :
    (joinLines l).data = intercalateChar (l.map String.data) := by
  match l with
  | [] => rfl
  | [x] => rfl
  | x :: y :: xs =>
    show (x ++ "\n" ++ joinLines (y :: xs)).data = _
    rw [String.data_append, String.data_append, joinLines_data (y :: xs),
      List.append_assoc]
    rfl

theorem splitListP_no_sep (p : Char → Bool) (l : List Char)
    (h : ∀ c ∈ l, p c = false) : splitListP p l = [l] := by
  induction l with
  | nil => rfl
  | cons c cs ih =>
    have hc : p c = false := h c (by simp)
    have hrest := ih (fun d hd => h d (by simp [hd]))
    simp [splitListP, hc, hrest]

theorem splitListP_append (p : Char → Bool) (x rest : List Char) (sep : Char)
    (hx : ∀ c ∈ x, p c = false) (hsep : p sep = true) :
    splitListP p (x ++ sep :: rest) = x :: splitListP p rest := by
  induction x with
  | nil => simp [splitListP, hsep]
  | cons c cs ih =>
    have hc : p c = false := hx c (by simp)
    have hrest := ih (fun d hd => hx d (by simp [hd]))
    simp [splitListP, hc, hrest]

theorem splitListP_intercalate (p : Char → Bool) (hp : p '\n' = true) :
    ∀ ls : List (List Char), ls ≠ [] → (∀ x ∈ ls, ∀ c ∈ x, p c = false) →
      splitListP p (intercalateChar ls) = ls := by
  intro ls
  match ls with
  | [] => intro h; exact absurd rfl h
  | [x] =>
    intro _ h
    exact splitListP_no_sep p x (h x (by simp))
  | x :: y :: xs =>
    intro _ h
    show splitListP p (x ++ '\n' :: intercalateChar (y :: xs)) = _
    rw [splitListP_append p x _ '\n' (h x (by simp)) hp]
    rw [splitListP_intercalate p hp (y :: xs) (by simp)
      (fun z hz c hc => h z (by simp [List.mem_cons.mp hz]) c hc)]

theorem linesOf_joinLines (l : List String) (hne : l ≠ [])
    (hemp : ∀ x ∈ l, x ≠ "")
    (hnl : ∀ x ∈ l, ∀ c ∈ x.data, ¬ c = '\n') :
    linesOf (joinLines l) = l := by
  have hdata : (joinLines l).data = intercalateChar (l.map String.data) := joinLines_data l
  have hnonempty : ¬ (joinLines l).data = [] := by
    rw [hdata]
    match l, hne with
    | [x], _ =>
      show ¬ x.data = []
      exact (string_ne_empty_iff x).mp (hemp x (by simp))
    | x :: y :: xs, _ =>
      show ¬ x.data ++ '\n' :: intercalateChar ((y :: xs).map String.data) = []
      simp
  unfold linesOf
  rw [if_neg hnonempty, hdata]
  rw [splitListP_intercalate _ (by simp) (l.map String.data) (by simpa using hne)
    (by
      intro x hx c hc
      obtain ⟨s, hs, rfl⟩ := List.mem_map.mp hx
      have hn := hnl s hs c hc
      simp [hn])]
  rw [List.map_map]
  have hid : (String.mk ∘ String.data) = id := funext fun s => mkData s
  rw [hid, List.map_id]

/-! ## No-newline facts about the generated lines -/

theorem dataMk (l : List Char) : (String.mk l).data = l := rfl

theorem mem_pyStrip (s : String) (c : Char) (h : c ∈ (pyStrip s).data) : c ∈ s.data := by
  unfold pyStrip at h
  rw [dataMk] at h
  rw [List.mem_reverse] at h
  have h2 := (List.dropWhile_sublist isPySpace).mem h
  rw [List.mem_reverse] at h2
  exact (List.dropWhile_sublist isPySpace).mem h2

theorem digitChar_ne_nl (d : ℕ) (hd : d < 10) : ¬ digitChar d = '\n' := by
  interval_cases d <;> decide

theorem natToStrAux_no_nl (fuel : ℕ) : ∀ (n : ℕ), ∀ c ∈ natToStrAux fuel n, ¬ c = '\n' := by
  induction fuel with
  | zero => intro n c hc; simp [natToStrAux] at hc
  | succ fuel ih =>
    intro n c hc
    unfold natToStrAux at hc
    by_cases h : n < 10
    · rw [if_pos h] at hc
      rw [List.mem_singleton] at hc
      subst hc
      exact digitChar_ne_nl n h
    · rw [if_neg h] at hc
      rcases List.mem_append.mp hc with hc | hc
      · exact ih (n / 10) c hc
      · rw [List.mem_singleton] at hc
        subst hc
        exact digitChar_ne_nl (n % 10) (Nat.mod_lt n (by norm_num))

theorem intToStr_no_nl (i : ℤ) : ∀ c ∈ (intToStr i).data, ¬ c = '\n' := by
  intro c hc
  unfold intToStr at hc
  by_cases h : i < 0
  · rw [if_pos h, dataMk] at hc
    rcases List.mem_cons.mp hc with hc | hc
    · subst hc; decide
    · exact natToStrAux_no_nl _ _ c (by simpa [natToStr, dataMk] using hc)
  · rw [if_neg h] at hc
    exact natToStrAux_no_nl _ _ c (by simpa [natToStr, dataMk] using hc)

theorem lineOf_no_nl (u : Utterance) (h : ∀ c ∈ u.text.data, ¬ c = '\n') :
    ∀ c ∈ (lineOf u).data, ¬ c = '\n' := by
  intro c hc
  unfold lineOf at hc
  rw [String.data_append, String.data_append, String.data_append] at hc
  rcases List.mem_append.mp hc with hc | hc
  · rcases List.mem_append.mp hc with hc | hc
    · rcases List.mem_append.mp hc with hc | hc
      · exact (by decide : ∀ x ∈ ("Speaker " : String).data, ¬ x = '\n') c hc
      · exact intToStr_no_nl u.speaker c hc
    · exact (by decide : ∀ x ∈ (": " : String).data, ¬ x = '\n') c hc
  · exact h c hc

theorem lineOf_ne_empty (u : Utterance) : lineOf u ≠ "" := by
  rw [string_ne_empty_iff]
  unfold lineOf
  rw [String.data_append, String.data_append, String.data_append]
  simp [dataMk]

/-! ## Shared helper facts for the claim theorems -/


theorem stripSpk_setSpeaker (l : String) (seg : Segment) :
    stripSpk (setSpeaker l seg) = stripSpk seg := rfl

theorem parseSpeakerNum_default : parseSpeakerNum "SPEAKER_00" = 0 := by decide

/-- The transcript text lines are exactly the rendered utterances, under
the proviso that no segment text contains a newline. -/
theorem lines_eq_map_lineOf (segs : List Segment)
    (hnl : ∀ seg ∈ segs, ∀ c ∈ seg.text.data, ¬ c = '\n') :
    linesOf (format_output segs).1 = ((format_output segs).2.2).map lineOf := by
  rw [format_output_eq]
  show linesOf (joinLines ((segs.filter keepSeg).map (fun s => lineOf (mkUtterance s)))) = _
  cases hf : (segs.filter keepSeg) with
  | nil => simp [joinLines, linesOf]
  | cons s ss =>
    rw [← hf]
    have hlines : ∀ x ∈ (segs.filter keepSeg).map (fun s => lineOf (mkUtterance s)),
        ∀ c ∈ x.data, ¬ c = '\n' := by
      intro x hx c hc
      obtain ⟨sg, hsg, rfl⟩ := List.mem_map.mp hx
      refine lineOf_no_nl (mkUtterance sg) ?_ c hc
      intro d hd
      have hmem : d ∈ sg.text.data := mem_pyStrip sg.text d hd
      exact hnl sg (List.mem_filter.mp hsg).1 d hmem
    rw [linesOf_joinLines _ (by rw [hf]; simp)
      (by
        intro x hx
        obtain ⟨sg, _, rfl⟩ := List.mem_map.mp hx
        exact lineOf_ne_empty (mkUtterance sg)) hlines]
    rw [List.map_map]
    rfl

/-! ## Claim theorems -/

/-- C1: `diarize` assigns each segment the speaker whose turns have the
maximum total accumulated overlap with the segment window, where the
per-turn overlap is `max(0, min(segEnd, turnEnd) - max(segStart,
turnStart))`; a segment with zero overlap against every turn gets the
default speaker `SPEAKER_00`; and the concrete tie-break example
`[0,10]` against `A=[0,6]`, `B=[6,10]` is assigned `A`. -/
theorem claim1_overlap_assignment (segStart segEnd : ℚ) (turns : List Turn)
    (env : DiarEnv) (segs : List Segment) (n : Option ℤ) :
    (∀ k : String, overlapSum segStart segEnd k turns ≤
        overlapSum segStart segEnd (assignSpeaker segStart segEnd turns) turns)
    ∧ ((∀ t ∈ turns, ov segStart segEnd t = 0) →
        assignSpeaker segStart segEnd turns = "SPEAKER_00")
    ∧ (tokenPresent env.hfToken = true →
        (env.modelCached = true ∨ env.loadResult = Except.ok ()) →
        env.invokeResult = Except.ok turns →
        diarize env segs n = Except.ok (segs.map (fun seg =>
          setSpeaker (assignSpeaker (segStartOf seg) (segEndOf seg) turns) seg)))
    ∧ assignSpeaker 0 10 [⟨"A", 0, 6⟩, ⟨"B", 6, 10⟩] = "A" := by
  refine ⟨fun k => assignSpeaker_maximal segStart segEnd turns k,
    assignSpeaker_default segStart segEnd turns,
    diarize_ok_assigns env segs n turns, ?_⟩
  have hAB : ¬ ("A" : String) = "B" := by decide
  norm_num [assignSpeaker, buildTimes, diarStep, ov, addTime, pickMax, pickBest, hAB]

/-- Witness for C1, applying the theorem at the concrete example of the
claim and at an empty turn list. -/
theorem claim1_overlap_assignment_witness :
    overlapSum 0 10 "B" [⟨"A", 0, 6⟩, ⟨"B", 6, 10⟩] ≤
      overlapSum 0 10 (assignSpeaker 0 10 [⟨"A", 0, 6⟩, ⟨"B", 6, 10⟩])
        [⟨"A", 0, 6⟩, ⟨"B", 6, 10⟩]
    ∧ assignSpeaker 0 10 [] = "SPEAKER_00"
    ∧ diarize diarEnvInvokeFail [] none = Except.ok []
    ∧ assignSpeaker 0 10 [⟨"A", 0, 6⟩, ⟨"B", 6, 10⟩] = "A" :=
  ⟨(claim1_overlap_assignment 0 10 [⟨"A", 0, 6⟩, ⟨"B", 6, 10⟩] diarEnvNoToken [] none).1 "B",
   (claim1_overlap_assignment 0 10 [] diarEnvNoToken [] none).2.1 (by simp),
   (claim1_overlap_assignment 0 10 [] ⟨some "tok", true, Except.ok (), Except.ok []⟩
      [] none).2.2.1 (by decide) (Or.inl rfl) rfl,
   (claim1_overlap_assignment 0 10 [⟨"A", 0, 6⟩, ⟨"B", 6, 10⟩] diarEnvNoToken
      [] none).2.2.2⟩

/-- C2 counterexample: with the credential present, a cold cache and
`Pipeline.from_pretrained` raising, the load failure escapes `diarize`
(it happens before the `try` block) and the pipeline produces a Failure
envelope, contradicting the claim that any diarization-model failure is
caught inside `diarize` and never yields a Failure envelope. -/
theorem claim2_counterexample :
    diarize diarEnvLoadFail [segA] none = Except.error "load failed"
    ∧ (process_transcription envLoadFail).1.status = "error"
    ∧ (process_transcription envLoadFail).1.error = some "load failed" :=
  ⟨rfl, by decide, by decide⟩

/-- C2 amended: only failures *invoking* the diarization model are caught
inside `diarize` (degrading every segment to `SPEAKER_00`, hence no
Failure envelope when the rest of the pipeline succeeds); a failure
*loading* the model propagates out of `diarize` as a pipeline-fatal
exception. -/
theorem claim2_amended (env : DiarEnv) (segs : List Segment) (n : Option ℤ) :
    (tokenPresent env.hfToken = true →
      (env.modelCached = true ∨ env.loadResult = Except.ok ()) →
      (∃ msg, env.invokeResult = Except.error msg) →
      diarize env segs n = Except.ok (segs.map (setSpeaker "SPEAKER_00")))
    ∧ (segs ≠ [] → tokenPresent env.hfToken = true → env.modelCached = false →
        ∀ msg, env.loadResult = Except.error msg →
          diarize env segs n = Except.error msg)
    ∧ (∀ e : PEnv, e.diarEnv = env →
        (∃ u, sourceUrl e = some u) →
        (∃ p, e.downloadResult = Except.ok p) →
        (∃ w, e.convertResult = Except.ok w) →
        (∃ r, e.whisperResult = Except.ok r) →
        (∃ d, e.durationResult = Except.ok d) →
        tokenPresent env.hfToken = true →
        (env.modelCached = true ∨ env.loadResult = Except.ok ()) →
        (∃ msg, env.invokeResult = Except.error msg) →
        (process_transcription e).1.status = "success") := by
  have hinvoke : ∀ (segs2 : List Segment) (n2 : Option ℤ),
      tokenPresent env.hfToken = true →
      (env.modelCached = true ∨ env.loadResult = Except.ok ()) →
      (∃ msg, env.invokeResult = Except.error msg) →
      diarize env segs2 n2 = Except.ok (segs2.map (setSpeaker "SPEAKER_00")) := by
    intro segs2 n2 htok hload hiv
    obtain ⟨msg, hinv⟩ := hiv
    unfold diarize
    by_cases hnil : segs2 = []
    · subst hnil; simp
    · rw [if_neg hnil, htok]
      have hl : (if env.modelCached then Except.ok () else env.loadResult) = Except.ok () := by
        rcases hload with h | h
        · simp [h]
        · cases hm : env.modelCached <;> simp [h]
      rw [hl]
      simp [hinv]
  refine ⟨hinvoke segs n, ?_, ?_⟩
  · intro hnil htok hcold msg hload
    unfold diarize
    rw [if_neg hnil, htok]
    simp [hcold, hload]
  · intro e hdiar hu0 hp0 hw0 hr0 hd0 htok hload hinv
    obtain ⟨u, hu⟩ := hu0
    obtain ⟨p, hp⟩ := hp0
    obtain ⟨w, hw⟩ := hw0
    obtain ⟨r, hr⟩ := hr0
    obtain ⟨d, hd⟩ := hd0
    have hdz := hinvoke (r.segments.getD []) e.num_speakers htok hload hinv
    rw [← hdiar] at hdz
    simp only [process_transcription, runBody, transcribe, hu, hp, hw, hr, hd, hdz,
      Bind.bind, Except.bind, successEnvelope]

/-- Witness for the amended C2 at concrete environments. -/
theorem claim2_amended_witness :
    diarize diarEnvInvokeFail [segA] none = Except.ok ([segA].map (setSpeaker "SPEAKER_00"))
    ∧ diarize diarEnvLoadFail [segA] none = Except.error "load failed"
    ∧ (process_transcription envInvokeFail).1.status = "success" :=
  ⟨(claim2_amended diarEnvInvokeFail [segA] none).1 (by decide) (Or.inr rfl) ⟨"cuda error", rfl⟩,
   (claim2_amended diarEnvLoadFail [segA] none).2.1 (by decide) (by decide) rfl "load failed" rfl,
   (claim2_amended diarEnvInvokeFail [segA] none).2.2 envInvokeFail rfl
     ⟨"http://b/a.mp3", rfl⟩ ⟨"/tmp/rec1_input.mp3", rfl⟩ ⟨"/tmp/rec1_audio.wav", rfl⟩
     ⟨⟨some "en", some [segA]⟩, rfl⟩ ⟨0, rfl⟩ (by decide) (Or.inr rfl) ⟨"cuda error", rfl⟩⟩

/-- C3: on every run — success or fatal stage error — the `finally`
block runs cleanup for the job's recording identifier and then makes
exactly one callback attempt; the delivered envelope carries status
`"success"` with all success fields populated, or status `"error"` with
the error message, and in both cases carries `processing_seconds`. -/
theorem claim3_cleanup_and_single_callback (e : PEnv) :
    (process_transcription e).2 =
      [Effect.cleanup e.recording_id,
       Effect.callback e.callback_url e.callback_secret (process_transcription e).1]
    ∧ ((process_transcription e).2.countP isCallbackEffect) = 1
    ∧ (process_transcription e).1.processing_seconds = some e.elapsed
    ∧ (((process_transcription e).1.status = "success"
        ∧ (process_transcription e).1.error = none
        ∧ ((process_transcription e).1.transcript_text).isSome = true
        ∧ ((process_transcription e).1.transcript_json).isSome = true
        ∧ ((process_transcription e).1.transcript_utterances).isSome = true
        ∧ ((process_transcription e).1.duration_seconds).isSome = true
        ∧ ((process_transcription e).1.language).isSome = true
        ∧ ((process_transcription e).1.word_count).isSome = true
        ∧ ((process_transcription e).1.speaker_count).isSome = true)
      ∨ ((process_transcription e).1.status = "error"
        ∧ ∃ msg, (process_transcription e).1.error = some msg)) := by
  cases hb : runBody e with
  | ok d =>
    refine ⟨by simp [process_transcription, hb], ?_, ?_, ?_⟩
    · simp [process_transcription, hb, List.countP, List.countP.go, isCallbackEffect]
    · simp [process_transcription, hb, successEnvelope]
    · left
      simp [process_transcription, hb, successEnvelope]
  | error msg =>
    refine ⟨by simp [process_transcription, hb], ?_, ?_, ?_⟩
    · simp [process_transcription, hb, List.countP, List.countP.go, isCallbackEffect]
    · simp [process_transcription, hb, errorEnvelope]
    · right
      simp [process_transcription, hb, errorEnvelope]

/-- C4: with the `HF_TOKEN` credential absent, `diarize` skips model
invocation entirely, assigning the default speaker to every segment, and
every utterance `format_output` then produces has speaker index 0. -/
theorem claim4_unconfigured_default_speaker (env : DiarEnv) (segs : List Segment)
    (n : Option ℤ) (h : env.hfToken = none) :
    diarize env segs n = Except.ok (segs.map (setSpeaker "SPEAKER_00"))
    ∧ ∀ u ∈ (format_output (segs.map (setSpeaker "SPEAKER_00"))).2.2, u.speaker = 0 := by
  constructor
  · unfold diarize
    by_cases hnil : segs = []
    · subst hnil; simp
    · rw [if_neg hnil]
      have htok : tokenPresent env.hfToken = false := by rw [h]; rfl
      simp [htok]
  · intro u hu
    rw [format_output_eq] at hu
    simp only at hu
    obtain ⟨seg, hseg, rfl⟩ := List.mem_map.mp hu
    obtain ⟨hseg2, _⟩ := List.mem_filter.mp hseg
    obtain ⟨seg0, _, rfl⟩ := List.mem_map.mp hseg2
    show parseSpeakerNum (((setSpeaker "SPEAKER_00" seg0).speaker).getD "SPEAKER_00") = 0
    exact parseSpeakerNum_default

/-- Witness for C4 at a concrete unconfigured environment. -/
theorem claim4_unconfigured_default_speaker_witness :
    diarize diarEnvNoToken [segA] none = Except.ok ([segA].map (setSpeaker "SPEAKER_00"))
    ∧ ∀ u ∈ (format_output ([segA].map (setSpeaker "SPEAKER_00"))).2.2, u.speaker = 0 :=
  claim4_unconfigured_default_speaker diarEnvNoToken [segA] none rfl

/-- C5 counterexample: a segment whose text contains an embedded newline
("a\nb") yields one utterance in the JSON object and the utterance list,
but its transcript text has two newline-separated lines — the claimed
count equality across the three representations fails as stated for
arbitrary segment lists. -/
theorem claim5_counterexample :
    ¬ ((linesOf (format_output [segNL]).1).length =
        ((format_output [segNL]).2.2).length) := by decide

/-- C5 amended: provided no segment's text contains a newline character
(counting zero lines for an empty transcript text), the three output
representations have equal utterance counts and matching order — the
JSON object wraps exactly the utterance list, and the transcript lines
render the utterances in order — and every segment with empty trimmed
text is absent from all three alike, all three being generated from the
same order-preserving filter of the segments. -/
theorem claim5_amended (segs : List Segment)
    (hnl : ∀ seg ∈ segs, ∀ c ∈ seg.text.data, ¬ c = '\n') :
    (format_output segs).2.1.utterances = (format_output segs).2.2
    ∧ (format_output segs).2.2 = (segs.filter keepSeg).map mkUtterance
    ∧ linesOf (format_output segs).1 = ((format_output segs).2.2).map lineOf
    ∧ (linesOf (format_output segs).1).length = ((format_output segs).2.2).length := by
  have hlines := lines_eq_map_lineOf segs hnl
  refine ⟨?_, ?_, hlines, ?_⟩
  · rw [format_output_eq]
  · rw [format_output_eq]
  · rw [hlines, List.length_map]

/-- Witness for the amended C5 at a concrete newline-free segment list. -/
theorem claim5_amended_witness :
    (format_output [segA]).2.1.utterances = (format_output [segA]).2.2
    ∧ (format_output [segA]).2.2 = ([segA].filter keepSeg).map mkUtterance
    ∧ linesOf (format_output [segA]).1 = ((format_output [segA]).2.2).map lineOf
    ∧ (linesOf (format_output [segA]).1).length = ((format_output [segA]).2.2).length :=
  claim5_amended [segA] (by decide)

/-- C6 counterexample: with a segment text "x\ny", the rendered line list
is ["Speaker 0: x", "y"], which differs from rendering each utterance as
"Speaker {speaker}: {text}" (and the counts differ too), refuting the
claimed per-line equality for arbitrary segment lists. -/
theorem claim6_counterexample :
    ¬ (linesOf (format_output [segNL6]).1 =
        ((format_output [segNL6]).2.2).map lineOf) := by decide

/-- C6 amended: provided no segment's text contains a newline character
(counting zero lines for an empty transcript text), the number of
newline-separated lines of `transcript_text` equals the length of the
utterance list, and line `i` is exactly
`"Speaker {utterances[i].speaker}: {utterances[i].text}"`. -/
theorem claim6_amended (segs : List Segment)
    (hnl : ∀ seg ∈ segs, ∀ c ∈ seg.text.data, ¬ c = '\n') :
    (linesOf (format_output segs).1).length = ((format_output segs).2.2).length
    ∧ ∀ i (hi : i < ((format_output segs).2.2).length),
        (linesOf (format_output segs).1).getD i "" =
          lineOf (((format_output segs).2.2).get ⟨i, hi⟩) := by
  have hlines := lines_eq_map_lineOf segs hnl
  have hlen : (linesOf (format_output segs).1).length =
      ((format_output segs).2.2).length := by
    rw [hlines, List.length_map]
  refine ⟨hlen, ?_⟩
  intro i hi
  rw [hlines]
  rw [List.getD_eq_getElem _ _ (by rw [List.length_map]; exact hi)]
  rw [List.getElem_map]
  rfl

/-- Witness for the amended C6 at a concrete newline-free segment list. -/
theorem claim6_amended_witness :
    (linesOf (format_output [segA]).1).length = ((format_output [segA]).2.2).length
    ∧ ∀ i (hi : i < ((format_output [segA]).2.2).length),
        (linesOf (format_output [segA]).1).getD i "" =
          lineOf (((format_output [segA]).2.2).get ⟨i, hi⟩) :=
  claim6_amended [segA] (by decide)

/-- C7: the formatted word list keeps exactly the words having both
`start` and `end`, rounding times to 3 decimals and confidence (default
0.0 when absent) to 4 decimals; and a segment with non-empty trimmed
text still contributes its utterance — with exactly that word list —
even when some of its words were dropped. -/
theorem claim7_word_filter (ws : List Word) (seg : Segment) :
    buildWords ws = (ws.filter (fun w => w.wstart.isSome && w.wend.isSome)).map
        (fun w => { word := w.word, fstart := roundQ 3 (w.wstart.getD 0),
                    fend := roundQ 3 (w.wend.getD 0),
                    confidence := roundQ 4 (w.score.getD 0) })
    ∧ (¬ pyStrip seg.text = "" →
        (format_output [seg]).2.2 = [mkUtterance seg]
        ∧ (mkUtterance seg).text = pyStrip seg.text
        ∧ (mkUtterance seg).words = buildWords seg.words) := by
  constructor
  · induction ws with
    | nil => rfl
    | cons w ws ih =>
      cases hs : w.wstart with
      | none => simp [buildWords, hs, ih]
      | some s =>
        cases he : w.wend with
        | none => simp [buildWords, hs, he, ih]
        | some e => simp [buildWords, hs, he, ih]
  · intro h
    have hk : keepSeg seg = true := by simp [keepSeg, h]
    refine ⟨?_, rfl, rfl⟩
    rw [format_output_eq]
    simp [List.filter_cons, hk]

/-- Witness for C7: in `segD` the word "a" (no end timestamp) is dropped
from the word list while the word "b" is kept, and the parent segment's
text still appears as an utterance. -/
theorem claim7_word_filter_witness :
    (format_output [segD]).2.2 = [mkUtterance segD]
    ∧ (mkUtterance segD).text = pyStrip segD.text
    ∧ (mkUtterance segD).words = buildWords segD.words :=
  (claim7_word_filter segD.words segD).2 (by decide)

/-- C8 counterexample: `diarize` rewrites the `speaker` field of the
segments it is given (in the source it mutates the segment dicts in
place), so the segments are not left unchanged by the stages that run
after transcription. -/
theorem claim8_counterexample :
    ¬ (diarize diarEnvNoToken [segA] none = Except.ok [segA]) := by
  intro h
  have heval : diarize diarEnvNoToken [segA] none =
      Except.ok ([segA].map (setSpeaker "SPEAKER_00")) := rfl
  rw [heval] at h
  injection h with h
  simp [setSpeaker, segA, Segment.mk.injEq] at h

/-- C8 amended: later stages leave the transcription content of every
segment intact — whenever `diarize` returns segments, they are the input
segments with only the `speaker` field rewritten (`format_output` reads
the segments and builds fresh utterance objects, leaving them as-is). -/
theorem claim8_amended (env : DiarEnv) (segs : List Segment) (n : Option ℤ)
    (out : List Segment) (h : diarize env segs n = Except.ok out) :
    out.map stripSpk = segs.map stripSpk := by
  unfold diarize at h
  by_cases hnil : segs = []
  · subst hnil
    simp at h
    subst h
    rfl
  · rw [if_neg hnil] at h
    by_cases htok : tokenPresent env.hfToken = false
    · rw [if_pos htok] at h
      injection h with h
      subst h
      rw [List.map_map]
      exact List.map_congr_left fun a _ => rfl
    · rw [if_neg htok] at h
      cases hl : (if env.modelCached then Except.ok () else env.loadResult) with
      | error msg => rw [hl] at h; cases h
      | ok u =>
        rw [hl] at h
        cases hinv : env.invokeResult with
        | error msg =>
          simp only [hinv] at h
          injection h with h
          subst h
          rw [List.map_map]
          exact List.map_congr_left fun a _ => rfl
        | ok turns =>
          simp only [hinv] at h
          injection h with h
          subst h
          rw [List.map_map]
          exact List.map_congr_left fun a _ => rfl

/-- Witness for the amended C8: the unconfigured run rewrites only the
speaker field of `segA`. -/
theorem claim8_amended_witness :
    ([segA].map (setSpeaker "SPEAKER_00")).map stripSpk = [segA].map stripSpk :=
  claim8_amended diarEnvNoToken [segA] none ([segA].map (setSpeaker "SPEAKER_00")) rfl

/-- C9: the model caches are populated by an unguarded check-then-load
(`if model_name not in _model_cache: _model_cache[...] = load()` in
transcribe.py lines 33-35, `if _diarize_model is None: _diarize_model =
Pipeline.from_pretrained(...)` in diarize.py lines 40-45) with no lock:
under the interleaving where both jobs pass the emptiness check before
either stores, two loads are triggered, though a sequential schedule
performs exactly one. -/
theorem claim9_double_load :
    (raceRun [false, true, false, true] raceInit).loads = 2
    ∧ (raceRun [false, false, true, true] raceInit).loads = 1
    ∧ (raceRun [false, true, false, true] raceInit).pc1 = 2
    ∧ (raceRun [false, true, false, true] raceInit).pc2 = 2 := by decide

/-- C10: when the Whisper result has no detected-language entry and the
caller supplied no language, `transcribe` reports `"en"`; the detected
language is by construction always a present string. -/
theorem claim10_default_language (res : WhisperResult) (model_size : String)
    (h : res.language = none) :
    (transcribe res model_size none).2 = "en" := by
  simp [transcribe, h, pyOrStr]

/-- Witness for C10 at a concrete empty engine result. -/
theorem claim10_default_language_witness :
    (transcribe ⟨none, none⟩ "medium" none).2 = "en" :=
  claim10_default_language ⟨none, none⟩ "medium" rfl
